import Mathlib

/-!
Verification development for the GPU image-transform and readback pipeline
(content/common/gpu/client/gl_helper.h), the cookie prompt dialog
(chrome/browser/views/cookie_prompt_view.cc) and the externally-connectable
manifest handler
(chrome/common/extensions/manifest_handlers/externally_connectable.cc).

The GL helper source in the repository is the interface header: it fixes the
contracts (quality tiers, fallback, callback discipline, mailbox sentinels,
scaling pass structure) while the backing implementation file is not part of
the sources.  Definitions embedding that missing implementation are marked
`Modelled from the spec:` in their doc comments and follow the specification
text; everything else is translated directly from the source files.
-/

namespace GLHelper

/-- `GLHelper::ScalerQuality` from gl_helper.h: the quality tiers of the
scaling pipeline.  The source assigns explicit enumerator values 1, 2, 3. -/
inductive ScalerQuality where
  | SCALER_QUALITY_FAST
  | SCALER_QUALITY_GOOD
  | SCALER_QUALITY_BEST
  deriving DecidableEq

/-- The integer value of each enumerator, exactly as written in the source:
`SCALER_QUALITY_FAST = 1`, `SCALER_QUALITY_GOOD = 2`,
`SCALER_QUALITY_BEST = 3`. -/
def ScalerQuality.toInt : ScalerQuality → Nat
  | .SCALER_QUALITY_FAST => 1
  | .SCALER_QUALITY_GOOD => 2
  | .SCALER_QUALITY_BEST => 3

/-- The intended quality ordering FAST < GOOD < BEST, written out
extensionally (independently of the enumerator values). -/
def qualityLt : ScalerQuality → ScalerQuality → Bool
  | .SCALER_QUALITY_FAST, .SCALER_QUALITY_GOOD => true
  | .SCALER_QUALITY_FAST, .SCALER_QUALITY_BEST => true
  | .SCALER_QUALITY_GOOD, .SCALER_QUALITY_BEST => true
  | _, _ => false

/-- C8: the quality enumeration has integer values 1 (FAST), 2 (GOOD) and
3 (BEST), and for every pair of tiers numeric comparison of the enum values
coincides with the quality ordering FAST < GOOD < BEST. -/
theorem scaler_quality_enum_values :
    ScalerQuality.toInt .SCALER_QUALITY_FAST = 1 ∧
    ScalerQuality.toInt .SCALER_QUALITY_GOOD = 2 ∧
    ScalerQuality.toInt .SCALER_QUALITY_BEST = 3 ∧
    ∀ a b : ScalerQuality,
      qualityLt a b = decide (ScalerQuality.toInt a < ScalerQuality.toInt b) := by
  refine ⟨rfl, rfl, rfl, ?_⟩
  intro a b
  cases a <;> cases b <;> rfl

/-- Modelled from the spec: the effect of `GLHelper::CreateScaler` (whose
backing implementation, `GLHelperScaling`, is not among the sources).
`alloc q` abstracts whether resource (texture/framebuffer) allocation
succeeds at tier `q`; the result is the effective quality tier of the
returned scaler, `none` standing for the null scaler.  Per the header
comment, the quality may be adjusted down if allocations fail: the
requested tier is tried first, then each lower tier in numeric order. -/
def CreateScaler (alloc : ScalerQuality → Bool) (quality : ScalerQuality) :
    Option ScalerQuality :=
  match quality with
  | .SCALER_QUALITY_BEST =>
    if alloc .SCALER_QUALITY_BEST then some .SCALER_QUALITY_BEST
    else if alloc .SCALER_QUALITY_GOOD then some .SCALER_QUALITY_GOOD
    else if alloc .SCALER_QUALITY_FAST then some .SCALER_QUALITY_FAST
    else none
  | .SCALER_QUALITY_GOOD =>
    if alloc .SCALER_QUALITY_GOOD then some .SCALER_QUALITY_GOOD
    else if alloc .SCALER_QUALITY_FAST then some .SCALER_QUALITY_FAST
    else none
  | .SCALER_QUALITY_FAST =>
    if alloc .SCALER_QUALITY_FAST then some .SCALER_QUALITY_FAST
    else none

theorem CreateScaler_some_le (alloc : ScalerQuality → Bool)
    (q q' : ScalerQuality) (h : CreateScaler alloc q = some q') :
    q'.toInt ≤ q.toInt := by
  cases q <;> cases hB : alloc .SCALER_QUALITY_BEST <;>
    cases hG : alloc .SCALER_QUALITY_GOOD <;>
    cases hF : alloc .SCALER_QUALITY_FAST <;>
    simp [CreateScaler, hB, hG, hF] at h <;> subst h <;> decide

theorem CreateScaler_some_alloc (alloc : ScalerQuality → Bool)
    (q q' : ScalerQuality) (h : CreateScaler alloc q = some q') :
    alloc q' = true := by
  cases q <;> cases hB : alloc .SCALER_QUALITY_BEST <;>
    cases hG : alloc .SCALER_QUALITY_GOOD <;>
    cases hF : alloc .SCALER_QUALITY_FAST <;>
    simp [CreateScaler, hB, hG, hF] at h <;> subst h <;> assumption

theorem CreateScaler_some_maximal (alloc : ScalerQuality → Bool)
    (q q' : ScalerQuality) (h : CreateScaler alloc q = some q') :
    ∀ q'' : ScalerQuality,
      q'.toInt < q''.toInt → q''.toInt ≤ q.toInt → alloc q'' = false := by
  cases q <;> cases hB : alloc .SCALER_QUALITY_BEST <;>
    cases hG : alloc .SCALER_QUALITY_GOOD <;>
    cases hF : alloc .SCALER_QUALITY_FAST <;>
    simp [CreateScaler, hB, hG, hF] at h <;> subst h <;>
    intro q'' h1 h2 <;> cases q'' <;>
    first
      | assumption
      | exact absurd h1 (by decide)
      | exact absurd h2 (by decide)

theorem CreateScaler_none_iff (alloc : ScalerQuality → Bool)
    (q : ScalerQuality) :
    CreateScaler alloc q = none ↔
      ∀ q'' : ScalerQuality, q''.toInt ≤ q.toInt → alloc q'' = false := by
  cases q <;> cases hB : alloc .SCALER_QUALITY_BEST <;>
    cases hG : alloc .SCALER_QUALITY_GOOD <;>
    cases hF : alloc .SCALER_QUALITY_FAST <;>
    simp [CreateScaler, hB, hG, hF] <;>
    first
      | (intro q'' hq <;> cases q'' <;>
         first
           | assumption
           | exact absurd hq (by decide))
      | exact ⟨.SCALER_QUALITY_FAST, by decide, hF⟩
      | exact ⟨.SCALER_QUALITY_GOOD, by decide, hG⟩
      | exact ⟨.SCALER_QUALITY_BEST, by decide, hB⟩

/-- C2: resource-allocation fallback of `CreateScaler`.  When the scaler is
returned (`some q'`): its effective tier never exceeds the requested tier
`q`, allocation succeeded at the effective tier, and every tier strictly
between the effective tier and the requested one had failed (the pipeline
retried downward).  The null scaler (`none`) is returned exactly when
allocation fails at every tier up to and including the requested one, in
particular at the lowest tier. -/
theorem CreateScaler_quality_fallback (alloc : ScalerQuality → Bool)
    (q q' : ScalerQuality) :
    (CreateScaler alloc q = some q' →
      q'.toInt ≤ q.toInt ∧ alloc q' = true ∧
      ∀ q'' : ScalerQuality,
        q'.toInt < q''.toInt → q''.toInt ≤ q.toInt → alloc q'' = false) ∧
    (CreateScaler alloc q = none ↔
      ∀ q'' : ScalerQuality, q''.toInt ≤ q.toInt → alloc q'' = false) :=
  ⟨fun h => ⟨CreateScaler_some_le alloc q q' h,
             CreateScaler_some_alloc alloc q q' h,
             CreateScaler_some_maximal alloc q q' h⟩,
   CreateScaler_none_iff alloc q⟩

/-- Witness for C2 at a concrete allocation oracle that only succeeds at the
lowest tier: requesting BEST falls back to FAST, and in particular GOOD is
recorded as having failed on the way down. -/
theorem CreateScaler_quality_fallback_witness :
    (fun t => t == ScalerQuality.SCALER_QUALITY_FAST)
      ScalerQuality.SCALER_QUALITY_GOOD = false :=
  ((CreateScaler_quality_fallback
      (fun t => t == ScalerQuality.SCALER_QUALITY_FAST)
      .SCALER_QUALITY_BEST .SCALER_QUALITY_FAST).1 (by rfl)).2.2
    .SCALER_QUALITY_GOOD (by decide) (by decide)

/-- Modelled from the spec: the per-dimension halving loop of the scaling
pipeline (the `GLHelperScaling` implementation is not among the sources).
Starting from working size `w`, while the next halving would not undershoot
the destination size `dst` the working size is halved and a pass is
emitted; the returned list holds the working size after each halving
pass. -/
def halvingSizes (w dst : Nat) : List Nat :=
  if h : 0 < dst ∧ 2 * dst ≤ w then (w / 2) :: halvingSizes (w / 2) dst
  else []
termination_by w
decreasing_by omega

/-- Modelled from the spec: the sequence of working sizes produced by the
scaling pipeline in one dimension.  Downscaling performs the halving passes
followed by one final non-power-of-two pass landing exactly on `dst`;
upscaling (and the degenerate equal-size case) is a single pass. -/
def scaleStages (src dst : Nat) : List Nat :=
  if dst < src then halvingSizes src dst ++ [dst]
  else [dst]

theorem halvingSizes_chain (dst : Nat) (w : Nat) :
    List.Chain (fun a b => b = a / 2 ∧ 2 * b ≤ a ∧ dst ≤ b) w
      (halvingSizes w dst) := by
  induction w using Nat.strong_induction_on with
  | _ w ih =>
    rw [halvingSizes]
    split
    next h =>
      exact List.Chain.cons ⟨rfl, by omega, by omega⟩ (ih (w / 2) (by omega))
    next h =>
      exact List.Chain.nil

theorem halvingSizes_getLastD (dst : Nat) (w : Nat) (hdst : 0 < dst) :
    (w :: halvingSizes w dst).getLastD 0 < 2 * dst := by
  induction w using Nat.strong_induction_on with
  | _ w ih =>
    rw [halvingSizes]
    split
    next h =>
      rw [List.getLastD_cons, List.getLastD_cons]
      have hrec := ih (w / 2) (by omega)
      rwa [List.getLastD_cons] at hrec
    next h =>
      rw [List.getLastD_cons]
      simp only [List.getLastD_nil]
      omega

theorem getLastD_append_singleton {α : Type} (l : List α) (a d : α) :
    (l ++ [a]).getLastD d = a := by
  induction l generalizing d with
  | nil => rfl
  | cons x xs ih =>
    rw [List.cons_append, List.getLastD_cons]
    exact ih x

/-- C3: structure of the scaling pass sequence, per dimension.  If
`dst < src` the stages are the halving passes followed by one final pass:
every halving pass exactly halves the working size (hence reduces it by at
least 50%) and never undershoots `dst`, the working size left after the
last halving pass would undershoot `dst` if halved once more, and the final
pass lands exactly on `dst`.  If `src ≤ dst` (upscaling or equal size) the
pipeline uses exactly one pass, landing on `dst`. -/
theorem scaleStages_correct (src dst : Nat) (h0 : 0 < dst) :
    (src ≤ dst → scaleStages src dst = [dst]) ∧
    (dst < src →
      scaleStages src dst = halvingSizes src dst ++ [dst] ∧
      List.Chain (fun a b => b = a / 2 ∧ 2 * b ≤ a ∧ dst ≤ b) src
        (halvingSizes src dst) ∧
      ((src :: halvingSizes src dst).getLastD 0) / 2 < dst ∧
      (scaleStages src dst).getLastD 0 = dst) := by
  constructor
  · intro hle
    rw [scaleStages, if_neg (by omega)]
  · intro hlt
    have hs : scaleStages src dst = halvingSizes src dst ++ [dst] := by
      rw [scaleStages, if_pos hlt]
    refine ⟨hs, halvingSizes_chain dst src, ?_, ?_⟩
    · have := halvingSizes_getLastD dst src h0
      omega
    · rw [hs]
      exact getLastD_append_singleton _ _ _

/-- Witness for C3 at src = 100, dst = 30: the pipeline halves 100 to 50,
stops (25 would undershoot 30), and the final pass lands exactly on 30. -/
theorem scaleStages_correct_witness :
    (scaleStages 100 30).getLastD 0 = 30 :=
  ((scaleStages_correct 100 30 (by decide)).2 (by decide)).2.2.2

/-- The all-zero mailbox name: the sentinel for failure-to-produce.  A
mailbox is a fixed-size (64 byte) opaque byte name; it is modelled as the
list of its bytes. -/
def emptyMailbox : List Nat := List.replicate 64 0

/-- The (nonzero) mailbox name generated for the n-th successful produce
call: its first byte is nonzero, so it is never the all-zero mailbox. -/
def mailboxName (n : Nat) : List Nat := (n + 1) :: List.replicate 63 0

/-- Modelled from the spec: the cross-context mailbox registry.  `registry`
maps live (not yet consumed) mailbox names to the texture they bind,
`nextName` feeds fresh names, `nextTexture` feeds fresh local texture
handles (handle 0 is the invalid handle). -/
structure MailboxState where
  registry : List (List Nat × Nat)
  nextName : Nat
  nextTexture : Nat

/-- Modelled from the spec: `GLHelper::ProduceMailboxFromTexture`.  Per the
header, it returns an empty (all-zero) mailbox on failure; producing from
the invalid texture handle 0 is the failure case, any valid texture is
published under a fresh name. -/
def ProduceMailboxFromTexture (st : MailboxState) (texture_id : Nat) :
    MailboxState × List Nat :=
  if texture_id = 0 then (st, emptyMailbox)
  else ({ st with
            registry := (mailboxName st.nextName, texture_id) :: st.registry,
            nextName := st.nextName + 1 },
        mailboxName st.nextName)

/-- Modelled from the spec: `GLHelper::ConsumeMailboxToTexture`.  Per the
header it returns 0 on failure; an unknown (or already consumed) mailbox is
the failure case.  On success the entry is consumed from the registry and a
fresh nonzero local texture handle is returned.  The sync point only orders
GPU commands and does not affect the registry. -/
def ConsumeMailboxToTexture (st : MailboxState) (mailbox : List Nat)
    (sync_point : Nat) : MailboxState × Nat :=
  match st.registry.find? (fun e => e.1 == mailbox) with
  | none => (st, 0)
  | some _ =>
      ({ st with registry := st.registry.filter (fun e => e.1 != mailbox),
                 nextTexture := st.nextTexture + 1 },
       st.nextTexture + 1)

/-- C4: failure sentinels of the cross-context sharing protocol.  Consuming
an unknown mailbox returns the invalid texture handle 0 and leaves the
state unchanged; consuming the same mailbox twice returns 0 the second
time; producing from the invalid texture returns the all-zero mailbox; a
successful produce never returns the all-zero mailbox (the sentinel is
unambiguous). -/
theorem mailbox_failure_sentinels :
    (∀ (st : MailboxState) (m : List Nat) (sp : Nat),
      st.registry.find? (fun e => e.1 == m) = none →
      ConsumeMailboxToTexture st m sp = (st, 0)) ∧
    (∀ (st : MailboxState) (m : List Nat) (sp sp' : Nat),
      (ConsumeMailboxToTexture (ConsumeMailboxToTexture st m sp).1 m sp').2
        = 0) ∧
    (∀ st : MailboxState, (ProduceMailboxFromTexture st 0).2 = emptyMailbox) ∧
    (∀ (st : MailboxState) (t : Nat), t ≠ 0 →
      (ProduceMailboxFromTexture st t).2 ≠ emptyMailbox) := by
  refine ⟨?_, ?_, ?_, ?_⟩
  · intro st m sp h
    rw [ConsumeMailboxToTexture, h]
  · intro st m sp sp'
    cases h : st.registry.find? (fun e => e.1 == m) with
    | none =>
      simp only [ConsumeMailboxToTexture, h]
    | some e =>
      have hnone :
          (st.registry.filter (fun e => e.1 != m)).find?
            (fun e => e.1 == m) = none := by
        rw [List.find?_eq_none]
        intro x hx
        have := (List.mem_filter.mp hx).2
        simp only [bne_iff_ne, ne_eq] at this
        simp [this]
      simp only [ConsumeMailboxToTexture, h, hnone]
  · intro st
    rw [ProduceMailboxFromTexture, if_pos rfl]
  · intro st t ht
    rw [ProduceMailboxFromTexture, if_neg ht]
    simp only [mailboxName, emptyMailbox]
    rw [show (64 : Nat) = 63 + 1 from rfl, List.replicate_succ]
    simp

/-- Witness for C4: consuming a mailbox in the empty registry fails with
texture handle 0, and producing from texture 5 yields a non-empty
mailbox. -/
theorem mailbox_failure_sentinels_witness :
    ConsumeMailboxToTexture ⟨[], 0, 0⟩ emptyMailbox 7 = (⟨[], 0, 0⟩, 0) ∧
    (ProduceMailboxFromTexture ⟨[], 0, 0⟩ 5).2 ≠ emptyMailbox :=
  ⟨mailbox_failure_sentinels.1 ⟨[], 0, 0⟩ emptyMailbox 7 (by rfl),
   mailbox_failure_sentinels.2.2.2 ⟨[], 0, 0⟩ 5 (by decide)⟩

/-- `gfx::Size`: a width/height pair with non-negative components. -/
structure Size where
  width : Nat
  height : Nat
  deriving DecidableEq

/-- `gfx::Rect`: an integer rectangle with non-negative components. -/
structure Rect where
  x : Nat
  y : Nat
  width : Nat
  height : Nat
  deriving DecidableEq

/-- Modelled from the spec: a `GLHelper::ScalerInterface` instance.  The
source header fixes the contract: the geometry (source size, source
subrect, destination size) is cached at construction; `scale_count` stands
for the mutable internal state (cached textures, shader programs, number of
executed passes) that `Scale` calls do update. -/
structure ScalerInterface where
  src_size : Size
  src_subrect : Rect
  dst_size : Size
  scale_count : Nat
  deriving DecidableEq

/-- `ScalerInterface::Scale(source_texture, dest_texture)`: executes the
cached pass sequence; it updates only the internal bookkeeping, never the
geometry. -/
def ScalerInterface.Scale (s : ScalerInterface)
    (source_texture dest_texture : Nat) : ScalerInterface :=
  { s with scale_count := s.scale_count + 1 }

/-- `ScalerInterface::SrcSize()`. -/
def ScalerInterface.SrcSize (s : ScalerInterface) : Size := s.src_size

/-- `ScalerInterface::SrcSubrect()`. -/
def ScalerInterface.SrcSubrect (s : ScalerInterface) : Rect := s.src_subrect

/-- `ScalerInterface::DstSize()`. -/
def ScalerInterface.DstSize (s : ScalerInterface) : Size := s.dst_size

/-- C6: a scaler's geometry is immutable for its lifetime.  After any
sequence of `Scale` calls, `SrcSize`, `SrcSubrect` and `DstSize` return
exactly the values fixed at construction (and `Scale` is the only
operation on a scaler: there is no resizing operation). -/
theorem scaler_geometry_immutable (s : ScalerInterface)
    (calls : List (Nat × Nat)) :
    ((calls.foldl (fun t c => t.Scale c.1 c.2) s).SrcSize = s.SrcSize) ∧
    ((calls.foldl (fun t c => t.Scale c.1 c.2) s).SrcSubrect = s.SrcSubrect) ∧
    ((calls.foldl (fun t c => t.Scale c.1 c.2) s).DstSize = s.DstSize) := by
  induction calls generalizing s with
  | nil => exact ⟨rfl, rfl, rfl⟩
  | cons c cs ih =>
    simp only [List.foldl_cons]
    have h := ih (s.Scale c.1 c.2)
    exact ⟨h.1, h.2.1, h.2.2⟩

/-- Half of a size, per axis. -/
def halfSize (s : Size) : Size := ⟨s.width / 2, s.height / 2⟩

/-- Modelled from the spec: the three scalers built by a YUV readback
pipeline. -/
structure ReadbackYUVPipeline where
  y_scaler : ScalerInterface
  u_scaler : ScalerInterface
  v_scaler : ScalerInterface

/-- Round a requested plane dimension down to the nearest even value: the
defensive clamp the pipeline applies to odd geometry. -/
def evenClamp (n : Nat) : Nat := n - n % 2

/-- Modelled from the spec: `GLHelper::CreateReadbackPipelineYUV` builds
three scalers (Y, U and V) sharing the crop geometry (`src_size`,
`src_subrect`); the Y plane is scaled to the destination subrect size and
the U and V planes to half of it per axis, realizing 4:2:0 subsampling.
All components of `dst_size` and `dst_subrect` must be a multiple of two
(a precondition stated in the header); per the spec an odd request is
clamped, never silently turned into mismatched plane sizes: each requested
dimension is rounded down to even before the planes are sized. -/
def CreateReadbackPipelineYUV (quality : ScalerQuality) (src_size : Size)
    (src_subrect : Rect) (dst_size : Size) (dst_subrect : Rect)
    (flip_vertically : Bool) (use_mrt : Bool) : ReadbackYUVPipeline :=
  { y_scaler := ⟨src_size, src_subrect,
                 ⟨evenClamp dst_subrect.width,
                  evenClamp dst_subrect.height⟩, 0⟩,
    u_scaler := ⟨src_size, src_subrect,
                 halfSize ⟨evenClamp dst_subrect.width,
                           evenClamp dst_subrect.height⟩, 0⟩,
    v_scaler := ⟨src_size, src_subrect,
                 halfSize ⟨evenClamp dst_subrect.width,
                           evenClamp dst_subrect.height⟩, 0⟩ }

/-- C5: the YUV pipeline's three scalers always share the crop geometry,
and for every request - even or odd alike - the U and V planes have
exactly half the width and half the height of the Y plane (stated as an
exact doubling, so no mismatch can hide in rounding) and every plane
dimension is even: an odd request is clamped down to even, never silently
turned into mismatched plane sizes.  An even request (the header's stated
precondition) is honored exactly: the Y plane keeps the requested
destination subrect size. -/
theorem yuv_420_plane_sizes (quality : ScalerQuality) (src_size : Size)
    (src_subrect : Rect) (dst_size : Size) (dst_subrect : Rect)
    (flip_vertically use_mrt : Bool) :
    ((CreateReadbackPipelineYUV quality src_size src_subrect dst_size
        dst_subrect flip_vertically use_mrt).y_scaler.SrcSize = src_size ∧
     (CreateReadbackPipelineYUV quality src_size src_subrect dst_size
        dst_subrect flip_vertically use_mrt).u_scaler.SrcSize = src_size ∧
     (CreateReadbackPipelineYUV quality src_size src_subrect dst_size
        dst_subrect flip_vertically use_mrt).v_scaler.SrcSize = src_size ∧
     (CreateReadbackPipelineYUV quality src_size src_subrect dst_size
        dst_subrect flip_vertically use_mrt).y_scaler.SrcSubrect
       = src_subrect ∧
     (CreateReadbackPipelineYUV quality src_size src_subrect dst_size
        dst_subrect flip_vertically use_mrt).u_scaler.SrcSubrect
       = src_subrect ∧
     (CreateReadbackPipelineYUV quality src_size src_subrect dst_size
        dst_subrect flip_vertically use_mrt).v_scaler.SrcSubrect
       = src_subrect) ∧
    (2 * (CreateReadbackPipelineYUV quality src_size src_subrect dst_size
        dst_subrect flip_vertically use_mrt).u_scaler.DstSize.width
       = (CreateReadbackPipelineYUV quality src_size src_subrect dst_size
        dst_subrect flip_vertically use_mrt).y_scaler.DstSize.width ∧
     2 * (CreateReadbackPipelineYUV quality src_size src_subrect dst_size
        dst_subrect flip_vertically use_mrt).u_scaler.DstSize.height
       = (CreateReadbackPipelineYUV quality src_size src_subrect dst_size
        dst_subrect flip_vertically use_mrt).y_scaler.DstSize.height ∧
     2 * (CreateReadbackPipelineYUV quality src_size src_subrect dst_size
        dst_subrect flip_vertically use_mrt).v_scaler.DstSize.width
       = (CreateReadbackPipelineYUV quality src_size src_subrect dst_size
        dst_subrect flip_vertically use_mrt).y_scaler.DstSize.width ∧
     2 * (CreateReadbackPipelineYUV quality src_size src_subrect dst_size
        dst_subrect flip_vertically use_mrt).v_scaler.DstSize.height
       = (CreateReadbackPipelineYUV quality src_size src_subrect dst_size
        dst_subrect flip_vertically use_mrt).y_scaler.DstSize.height) ∧
    ((CreateReadbackPipelineYUV quality src_size src_subrect dst_size
        dst_subrect flip_vertically use_mrt).y_scaler.DstSize.width % 2
       = 0 ∧
     (CreateReadbackPipelineYUV quality src_size src_subrect dst_size
        dst_subrect flip_vertically use_mrt).y_scaler.DstSize.height % 2
       = 0) ∧
    ((dst_subrect.width % 2 = 0 →
      (CreateReadbackPipelineYUV quality src_size src_subrect dst_size
        dst_subrect flip_vertically use_mrt).y_scaler.DstSize.width
        = dst_subrect.width) ∧
     (dst_subrect.height % 2 = 0 →
      (CreateReadbackPipelineYUV quality src_size src_subrect dst_size
        dst_subrect flip_vertically use_mrt).y_scaler.DstSize.height
        = dst_subrect.height)) := by
  refine ⟨⟨rfl, rfl, rfl, rfl, rfl, rfl⟩, ⟨?_, ?_, ?_, ?_⟩, ⟨?_, ?_⟩,
    ⟨?_, ?_⟩⟩ <;>
    simp only [CreateReadbackPipelineYUV, ScalerInterface.DstSize, halfSize,
      evenClamp] <;>
    omega

/-- Witness for C5 at two concrete geometries: the even request 320 x 240
is honored exactly (Y plane width 320), and for the odd request 5 x 7 the
planes still stand in the exact two-to-one ratio (the request is clamped,
not silently mismatched). -/
theorem yuv_420_plane_sizes_witness :
    (CreateReadbackPipelineYUV .SCALER_QUALITY_GOOD ⟨1024, 768⟩
        ⟨0, 0, 1024, 768⟩ ⟨320, 240⟩ ⟨0, 0, 320, 240⟩ false
        true).y_scaler.DstSize.width = 320 ∧
    2 * (CreateReadbackPipelineYUV .SCALER_QUALITY_GOOD ⟨1024, 768⟩
        ⟨0, 0, 1024, 768⟩ ⟨4, 6⟩ ⟨0, 0, 5, 7⟩ false
        true).u_scaler.DstSize.width
      = (CreateReadbackPipelineYUV .SCALER_QUALITY_GOOD ⟨1024, 768⟩
        ⟨0, 0, 1024, 768⟩ ⟨4, 6⟩ ⟨0, 0, 5, 7⟩ false
        true).y_scaler.DstSize.width :=
  ⟨(yuv_420_plane_sizes .SCALER_QUALITY_GOOD ⟨1024, 768⟩ ⟨0, 0, 1024, 768⟩
      ⟨320, 240⟩ ⟨0, 0, 320, 240⟩ false true).2.2.2.1 (by decide),
   (yuv_420_plane_sizes .SCALER_QUALITY_GOOD ⟨1024, 768⟩ ⟨0, 0, 1024, 768⟩
      ⟨4, 6⟩ ⟨0, 0, 5, 7⟩ false true).2.1.1⟩

/-- The three kinds of generated GL object handled by the scoped wrappers
(`ScopedBuffer`, `ScopedFramebuffer`, `ScopedTexture`). -/
inductive GLObjectKind where
  | buffer
  | framebuffer
  | texture
  deriving DecidableEq

/-- The observable state of the `gpu::gles2::GLES2Interface` the wrappers
drive: the lists of currently allocated object ids per kind (ids are
handed out from `nextId`, starting above 0 since 0 is the invalid handle)
and the binding table mapping each GLenum target to the bound id. -/
structure GLState where
  nextId : Nat
  buffers : List Nat
  framebuffers : List Nat
  textures : List Nat
  bound : Nat → Nat

/-- The allocated object ids of one kind. -/
def objectsOf (k : GLObjectKind) (st : GLState) : List Nat :=
  match k with
  | .buffer => st.buffers
  | .framebuffer => st.framebuffers
  | .texture => st.textures

/-- `GenBuffers/GenFramebuffers/GenTextures(1, &id_)` as invoked by the
`ScopedGLuint` constructor: generates exactly one fresh nonzero id of the
given kind. -/
def glGenOne (k : GLObjectKind) (st : GLState) : GLState × Nat :=
  let id := st.nextId + 1
  match k with
  | .buffer => ({ st with nextId := id, buffers := id :: st.buffers }, id)
  | .framebuffer =>
      ({ st with nextId := id, framebuffers := id :: st.framebuffers }, id)
  | .texture => ({ st with nextId := id, textures := id :: st.textures }, id)

/-- `DeleteBuffers/DeleteFramebuffers/DeleteTextures(1, &id_)`: releases the
object with the given id. -/
def glDeleteOne (k : GLObjectKind) (id : Nat) (st : GLState) : GLState :=
  match k with
  | .buffer => { st with buffers := st.buffers.filter (fun j => j != id) }
  | .framebuffer =>
      { st with framebuffers := st.framebuffers.filter (fun j => j != id) }
  | .texture => { st with textures := st.textures.filter (fun j => j != id) }

/-- The `ScopedGLuint` destructor body: `if (id_ != 0) delete_func_(1, &id_)`
from gl_helper.h. -/
def scopedGLuintDtor (k : GLObjectKind) (id : Nat) (st : GLState) : GLState :=
  if id ≠ 0 then glDeleteOne k id st else st

/-- The `ScopedGLuint` RAII scope: the constructor generates one object, the
body runs with the generated id (it may end in an error, standing for the
early-return/error exit paths of the enclosing C++ scope), and the
destructor then runs unconditionally. -/
def withScopedGLuint (k : GLObjectKind)
    (body : Nat → GLState → GLState × Except Unit Unit) (st : GLState) :
    GLState × Except Unit Unit :=
  let g := glGenOne k st
  let r := body g.2 g.1
  (scopedGLuintDtor k g.2 r.1, r.2)

/-- `BindBuffer/BindFramebuffer/BindTexture(Target, id)` as invoked by
`ScopedBinder`. -/
def glBind (target id : Nat) (st : GLState) : GLState :=
  { st with bound := fun t => if t = target then id else st.bound t }

/-- The `ScopedBinder` RAII scope, from gl_helper.h: the constructor binds
`id` to `Target`, the destructor binds 0 to `Target` unconditionally. -/
def withScopedBinder (target id : Nat)
    (body : GLState → GLState × Except Unit Unit) (st : GLState) :
    GLState × Except Unit Unit :=
  let r := body (glBind target id st)
  (glBind target 0 r.1, r.2)

/-- C7: discipline of the scoped GPU resource wrappers.  Construction
allocates exactly one object of the wrapper's kind (a fresh nonzero id
pushed on that kind's list, the other kinds untouched); the destructor
deletes the id whenever it is nonzero and skips the delete call for the 0
handle; for any body that does not itself change the wrapped kind's
object list, the whole scope leaves that list exactly as it was - also on
the error exit path - so no object leaks; a binder scope binds the id on
entry and leaves the target unbound (0) on exit whatever the body did or
returned. -/
theorem scoped_resource_discipline (k : GLObjectKind) (st : GLState) :
    (objectsOf k (glGenOne k st).1 = (glGenOne k st).2 :: objectsOf k st) ∧
    ((glGenOne k st).2 ≠ 0) ∧
    (∀ k' : GLObjectKind, k' ≠ k →
      objectsOf k' (glGenOne k st).1 = objectsOf k' st) ∧
    (∀ id : Nat, id ≠ 0 → id ∉ objectsOf k (scopedGLuintDtor k id st)) ∧
    (scopedGLuintDtor k 0 st = st) ∧
    (∀ body : Nat → GLState → GLState × Except Unit Unit,
      (∀ i stx, objectsOf k (body i stx).1 = objectsOf k stx) →
      (∀ j, j ∈ objectsOf k st → j ≤ st.nextId) →
      objectsOf k (withScopedGLuint k body st).1 = objectsOf k st) ∧
    (∀ target id : Nat, (glBind target id st).bound target = id) ∧
    (∀ (target id : Nat)
        (body : GLState → GLState × Except Unit Unit),
      (withScopedBinder target id body st).1.bound target = 0) := by
  refine ⟨?_, ?_, ?_, ?_, ?_, ?_, ?_, ?_⟩
  · cases k <;> rfl
  · cases k <;> simp [glGenOne]
  · intro k' hk'
    cases k <;> cases k' <;> simp_all <;> rfl
  · intro id hid
    intro hmem
    rw [scopedGLuintDtor, if_pos hid] at hmem
    cases k <;>
      simp only [objectsOf, glDeleteOne] at hmem <;>
      exact absurd ((List.mem_filter.mp hmem).2) (by simp)
  · rw [scopedGLuintDtor, if_neg (by simp)]
  · intro body hbody hbound
    have hdel : ∀ (idv : Nat) (s : GLState), objectsOf k (glDeleteOne k idv s)
        = (objectsOf k s).filter (fun j => j != idv) := fun idv s => by
      cases k <;> rfl
    have hobj : objectsOf k (glGenOne k st).1
        = (st.nextId + 1) :: objectsOf k st := by
      cases k <;> rfl
    have hid : (glGenOne k st).2 = st.nextId + 1 := by
      cases k <;> rfl
    rw [withScopedGLuint]
    simp only
    rw [scopedGLuintDtor, if_pos (by rw [hid]; omega)]
    rw [hdel, hbody, hobj, hid, List.filter_cons, if_neg (by simp)]
    rw [List.filter_eq_self]
    intro a ha
    have := hbound a ha
    simp only [bne_iff_ne, ne_eq]
    omega
  · intro target id
    simp [glBind]
  · intro target id body
    simp [withScopedBinder, glBind]

/-- Witness for C7: a texture scope whose body exits with an error leaves
the texture list of the initial state (one live texture with id 1)
unchanged. -/
theorem scoped_resource_discipline_witness :
    objectsOf .texture
      (withScopedGLuint .texture (fun _ stx => (stx, Except.error ()))
        ⟨1, [], [], [1], fun _ => 0⟩).1
      = objectsOf .texture ⟨1, [], [], [1], fun _ => 0⟩ :=
  (scoped_resource_discipline .texture
      ⟨1, [], [], [1], fun _ => 0⟩).2.2.2.2.2.1
    (fun _ stx => (stx, Except.error ()))
    (fun _ _ => rfl)
    (by intro j hj
        simp only [objectsOf, List.mem_singleton] at hj
        subst hj
        decide)

end GLHelper

namespace Readback

/-- The four asynchronous readback entry points of the GL helper that take a
single-shot completion callback. -/
inductive RequestKind where
  | cropScaleReadbackAndCleanTexture
  | cropScaleReadbackAndCleanMailbox
  | readbackTextureAsync
  | readbackYUV
  deriving DecidableEq

/-- Modelled from the spec: the events in the life of one GLHelper
orchestrator instance.  `issue k` is a call to one of the four async
readback entry points (the fresh request id is the state's `nextId`);
`complete i ok` is the GPU signalling completion of request `i` with
transfer result `ok`; `teardown` is the destruction of the owning
instance. -/
inductive Event where
  | issue (kind : RequestKind)
  | complete (id : Nat) (success : Bool)
  | teardown
  deriving DecidableEq

/-- Modelled from the spec: the callback bookkeeping of an orchestrator
instance.  `pending` holds the requests whose callback has not fired yet;
`torn` records that the instance has been destroyed. -/
structure State where
  nextId : Nat
  pending : List (Nat × RequestKind)
  torn : Bool
  deriving DecidableEq

/-- Modelled from the spec: one event step.  Issuing a request registers a
pending single-shot callback (after teardown the context is gone, so the
callback fires immediately with failure); a completion fires the pending
callback with the transfer result, exactly once since the request leaves
`pending`; teardown fires every still-pending callback with the failure
flag, as the spec requires.  The second component lists the callback
invocations (request id, success flag) the step performs. -/
def step (s : State) : Event → State × List (Nat × Bool)
  | .issue k =>
    if s.torn then (⟨s.nextId + 1, s.pending, s.torn⟩, [(s.nextId, false)])
    else (⟨s.nextId + 1, (s.nextId, k) :: s.pending, s.torn⟩, [])
  | .complete i ok =>
    if s.pending.any (fun p => p.1 == i) then
      (⟨s.nextId, s.pending.filter (fun p => p.1 != i), s.torn⟩, [(i, ok)])
    else (s, [])
  | .teardown => (⟨s.nextId, [], true⟩, s.pending.map (fun p => (p.1, false)))

/-- Run a trace of events from a state, collecting all callback
invocations in order. -/
def run (s : State) : List Event → State × List (Nat × Bool)
  | [] => (s, [])
  | e :: es => ((run (step s e).1 es).1, (step s e).2 ++ (run (step s e).1 es).2)

/-- A freshly constructed orchestrator: no requests yet, not torn down. -/
def initState : State := ⟨0, [], false⟩

/-- Number of callback invocations recorded for request `i`. -/
def countInv (out : List (Nat × Bool)) (i : Nat) : Nat :=
  (out.filter (fun p => p.1 == i)).length

/-- Number of pending entries for request `i` in a pending list. -/
def pendCount (l : List (Nat × RequestKind)) (i : Nat) : Nat :=
  (l.filter (fun p => p.1 == i)).length

/-- The ids of the requests whose callback is still pending. -/
def pendingIds (s : State) : List Nat := s.pending.map Prod.fst

theorem countInv_nil (i : Nat) : countInv [] i = 0 := rfl

theorem countInv_append (a b : List (Nat × Bool)) (i : Nat) :
    countInv (a ++ b) i = countInv a i + countInv b i := by
  simp [countInv, List.filter_append]

theorem countInv_single (j : Nat) (b : Bool) (i : Nat) :
    countInv [(j, b)] i = if j = i then 1 else 0 := by
  by_cases h : j = i <;> simp [countInv, h]

theorem pendCount_cons (j : Nat) (k : RequestKind)
    (l : List (Nat × RequestKind)) (i : Nat) :
    pendCount ((j, k) :: l) i = pendCount l i + (if j = i then 1 else 0) := by
  by_cases h : j = i <;> simp [pendCount, List.filter_cons, h]

theorem pendCount_eq_zero (l : List (Nat × RequestKind)) (n i : Nat)
    (h : ∀ p ∈ l, p.1 < n) (hn : n ≤ i) : pendCount l i = 0 := by
  rw [pendCount, List.filter_eq_nil.mpr, List.length_nil]
  intro p hp
  have := h p hp
  simp only [beq_iff_eq]
  omega

theorem countInv_map_pending (l : List (Nat × RequestKind)) (i : Nat) :
    countInv (l.map (fun p => (p.1, false))) i = pendCount l i := by
  induction l with
  | nil => rfl
  | cons a l ih =>
    by_cases h : a.1 = i <;>
      simp only [countInv, pendCount, List.map_cons, List.filter_cons,
        h, beq_self_eq_true, if_true, beq_iff_eq, List.length_cons] <;>
      simp only [countInv, pendCount] at ih <;>
      simp [h, ih]

theorem pend_filter_self (l : List (Nat × RequestKind)) (i : Nat) :
    pendCount (l.filter (fun p => p.1 != i)) i = 0 := by
  rw [pendCount, List.filter_eq_nil.mpr, List.length_nil]
  intro p hp
  have := (List.mem_filter.mp hp).2
  simp only [bne_iff_ne, ne_eq] at this
  simp [this]

theorem pend_filter_other (l : List (Nat × RequestKind)) (i j : Nat)
    (h : j ≠ i) :
    pendCount (l.filter (fun p => p.1 != i)) j = pendCount l j := by
  induction l with
  | nil => rfl
  | cons a l ih =>
    by_cases h1 : a.1 = i
    · rw [List.filter_cons, if_neg (by simp [h1])]
      rw [ih, pendCount_cons, if_neg (by omega)]
      omega
    · rw [List.filter_cons, if_pos (by simp [h1])]
      by_cases h2 : a.1 = j <;>
        rcases a with ⟨a1, ak⟩ <;>
        simp only at h1 h2 <;>
        rw [pendCount_cons, pendCount_cons, ih]

/-- The callback invariant: every pending request was issued; a torn-down
instance has no pending request; every issued request has exactly one
callback invocation counting a still-pending registration as the one
invocation yet to come; no invocation mentions an unissued request. -/
def Inv (s : State) (out : List (Nat × Bool)) : Prop :=
  (∀ p ∈ s.pending, p.1 < s.nextId) ∧
  (s.torn = true → s.pending = []) ∧
  (∀ i, i < s.nextId → countInv out i + pendCount s.pending i = 1) ∧
  (∀ i, s.nextId ≤ i → countInv out i = 0)

theorem step_inv (s : State) (out : List (Nat × Bool)) (e : Event)
    (h : Inv s out) : Inv (step s e).1 (out ++ (step s e).2) := by
  obtain ⟨h1, h2, h3, h4⟩ := h
  cases e with
  | issue k =>
    by_cases ht : s.torn = true
    · rw [step, if_pos ht]
      have hpend : s.pending = [] := h2 ht
      refine ⟨?_, ?_, ?_, ?_⟩
      · intro p hp
        have := h1 p hp
        dsimp only
        omega
      · intro _
        exact hpend
      · intro i hi
        dsimp only at hi ⊢
        rw [countInv_append, countInv_single, hpend]
        by_cases hii : s.nextId = i
        · rw [if_pos hii]
          have hc0 : countInv out i = 0 := h4 i (by omega)
          have : pendCount [] i = 0 := rfl
          omega
        · rw [if_neg hii]
          have := h3 i (by omega)
          rw [hpend] at this
          omega
      · intro i hi
        dsimp only at hi
        rw [countInv_append, countInv_single, if_neg (by omega)]
        have := h4 i (by omega)
        omega
    · rw [step, if_neg ht]
      refine ⟨?_, ?_, ?_, ?_⟩
      · intro p hp
        dsimp only at hp ⊢
        rcases List.mem_cons.mp hp with hpe | hpm
        · subst hpe
          simp
        · have := h1 p hpm
          omega
      · intro htorn
        dsimp only at htorn
        exact absurd htorn ht
      · intro i hi
        dsimp only at hi ⊢
        rw [countInv_append, countInv_nil, pendCount_cons]
        by_cases hii : s.nextId = i
        · rw [if_pos hii]
          have hc0 : countInv out i = 0 := h4 i (by omega)
          have hp0 : pendCount s.pending i = 0 :=
            pendCount_eq_zero s.pending s.nextId i h1 (by omega)
          omega
        · rw [if_neg hii]
          have := h3 i (by omega)
          omega
      · intro i hi
        dsimp only at hi
        rw [countInv_append, countInv_nil]
        have := h4 i (by omega)
        omega
  | complete i ok =>
    by_cases hany : s.pending.any (fun p => p.1 == i) = true
    · obtain ⟨p, hpm, hpi⟩ := List.any_eq_true.mp hany
      have hpi' : p.1 = i := by simpa using hpi
      have hiN : i < s.nextId := hpi' ▸ h1 p hpm
      have hge1 : 1 ≤ pendCount s.pending i := by
        have hmem : p ∈ s.pending.filter (fun p => p.1 == i) :=
          List.mem_filter.mpr ⟨hpm, hpi⟩
        have := List.length_pos.mpr (List.ne_nil_of_mem hmem)
        rw [pendCount]
        omega
      have h3i := h3 i hiN
      have hc0 : countInv out i = 0 := by omega
      rw [step, if_pos hany]
      refine ⟨?_, ?_, ?_, ?_⟩
      · intro q hq
        dsimp only at hq ⊢
        exact h1 q (List.mem_filter.mp hq).1
      · intro htorn
        dsimp only at htorn ⊢
        rw [h2 htorn]
        rfl
      · intro j hj
        dsimp only at hj ⊢
        rw [countInv_append, countInv_single]
        by_cases hji : i = j
        · subst hji
          rw [if_pos rfl, pend_filter_self]
          omega
        · rw [if_neg hji,
            pend_filter_other s.pending i j (fun hc => hji hc.symm)]
          have := h3 j hj
          omega
      · intro j hj
        dsimp only at hj
        rw [countInv_append, countInv_single, if_neg (by omega)]
        have := h4 j hj
        omega
    · rw [step, if_neg hany]
      refine ⟨h1, h2, ?_, ?_⟩
      · intro j hj
        dsimp only at hj ⊢
        rw [countInv_append, countInv_nil]
        have := h3 j hj
        omega
      · intro j hj
        dsimp only at hj
        rw [countInv_append, countInv_nil]
        have := h4 j hj
        omega
  | teardown =>
    rw [step]
    refine ⟨?_, ?_, ?_, ?_⟩
    · intro p hp
      exact absurd hp (List.not_mem_nil p)
    · intro _
      rfl
    · intro j hj
      dsimp only at hj ⊢
      rw [countInv_append, countInv_map_pending]
      have := h3 j hj
      have hz : pendCount [] j = 0 := rfl
      omega
    · intro j hj
      dsimp only at hj
      rw [countInv_append, countInv_map_pending]
      have := h4 j hj
      have hz := pendCount_eq_zero s.pending s.nextId j h1 hj
      omega

theorem run_inv (es : List Event) (s : State) (out : List (Nat × Bool))
    (h : Inv s out) : Inv (run s es).1 (out ++ (run s es).2) := by
  induction es generalizing s out with
  | nil => simpa [run] using h
  | cons e es ih =>
    have h1 := step_inv s out e h
    have h2 := ih (step s e).1 (out ++ (step s e).2) h1
    simpa [run, List.append_assoc] using h2

theorem initState_inv : Inv initState [] := by
  refine ⟨?_, ?_, ?_, ?_⟩
  · intro p hp
    exact absurd hp (List.not_mem_nil p)
  · intro _
    rfl
  · intro i hi
    simp [initState] at hi
  · intro i _
    rfl

/-- C1: the completion callback of every asynchronous readback request
(any of the four entry points) fires exactly once with a boolean flag.
For every trace of events: no issued request's callback is invoked more
than once; every issued request's callback has either already been invoked
(exactly once) or is still pending on the live instance - it is never
dropped; once the instance is torn down, every issued request's callback
has been invoked exactly once; and the teardown step itself invokes every
still-pending callback with the failure flag. -/
theorem readback_callbacks_exactly_once (tr : List Event) :
    (∀ i, i < (run initState tr).1.nextId →
      countInv (run initState tr).2 i ≤ 1) ∧
    (∀ i, i < (run initState tr).1.nextId →
      countInv (run initState tr).2 i = 1 ∨
        i ∈ pendingIds (run initState tr).1) ∧
    ((run initState tr).1.torn = true →
      ∀ i, i < (run initState tr).1.nextId →
        countInv (run initState tr).2 i = 1) ∧
    (∀ s : State,
      (step s Event.teardown).2 = s.pending.map (fun p => (p.1, false))) := by
  have hinv := run_inv tr initState [] initState_inv
  rw [List.nil_append] at hinv
  obtain ⟨h1, h2, h3, h4⟩ := hinv
  refine ⟨?_, ?_, ?_, fun s => rfl⟩
  · intro i hi
    have := h3 i hi
    omega
  · intro i hi
    have h3i := h3 i hi
    by_cases hc : countInv (run initState tr).2 i = 1
    · exact Or.inl hc
    · right
      have hp : pendCount (run initState tr).1.pending i ≠ 0 := by omega
      have hne : (run initState tr).1.pending.filter (fun p => p.1 == i)
          ≠ [] := by
        intro hnil
        rw [pendCount, hnil] at hp
        exact hp rfl
      obtain ⟨p, hpmem⟩ := List.exists_mem_of_ne_nil _ hne
      have hpf := List.mem_filter.mp hpmem
      exact List.mem_map.mpr ⟨p, hpf.1, by simpa using hpf.2⟩
  · intro ht i hi
    have h3i := h3 i hi
    have hz : pendCount (run initState tr).1.pending i = 0 := by
      rw [h2 ht]
      rfl
    omega

/-- Witness for C1 on a concrete trace: two requests are issued, the first
completes normally, the instance is torn down with the second still in
flight; after teardown the second request's callback has fired exactly
once (with the failure flag, per the teardown step). -/
theorem readback_callbacks_exactly_once_witness :
    countInv (run initState
      [Event.issue RequestKind.cropScaleReadbackAndCleanTexture,
       Event.issue RequestKind.readbackYUV,
       Event.complete 0 true,
       Event.teardown]).2 1 = 1 :=
  (readback_callbacks_exactly_once
      [Event.issue RequestKind.cropScaleReadbackAndCleanTexture,
       Event.issue RequestKind.readbackYUV,
       Event.complete 0 true,
       Event.teardown]).2.2.1 (by rfl) 1 (by decide)

end Readback

namespace Extensions

/-- `Sorted` from externally_connectable.cc: returns a copy of the input
vector sorted ascending (`std::sort`). -/
def Sorted (l : List String) : List String :=
  l.mergeSort (fun a b => decide (a ≤ b))

/-- The position `std::lower_bound` computes on a sorted range: the first
position whose element is not less than `v`, i.e. the length of the
maximal prefix of elements less than `v`. -/
def lower_bound (l : List String) (v : String) : Nat :=
  (l.takeWhile (fun x => decide (x < v))).length

/-- `std::binary_search(first, last, value)` as invoked by `IdCanConnect`:
computes `lower_bound` and returns `it != last && !(value < *it)`. -/
def binary_search (l : List String) (v : String) : Bool :=
  match l.drop (lower_bound l v) with
  | [] => false
  | x :: _ => !(decide (v < x))

/-- `ExternallyConnectableInfo` (the `matches` pattern set is omitted: the
claims under verification only concern `ids` and `all_ids`). -/
structure ExternallyConnectableInfo where
  ids : List String
  all_ids : Bool

/-- The `ExternallyConnectableInfo` constructor from
externally_connectable.cc: it stores `Sorted(ids)`. -/
def ExternallyConnectableInfo.ctor (ids : List String) (all_ids : Bool) :
    ExternallyConnectableInfo :=
  ⟨Sorted ids, all_ids⟩

/-- `ExternallyConnectableInfo::IdCanConnect` from
externally_connectable.cc: `all_ids` grants everything, otherwise a binary
search over the sorted `ids`. -/
def ExternallyConnectableInfo.IdCanConnect
    (info : ExternallyConnectableInfo) (id : String) : Bool :=
  if info.all_ids then true else binary_search info.ids id

theorem drop_length_takeWhile {α : Type} (p : α → Bool) (l : List α) :
    l.drop (l.takeWhile p).length = l.dropWhile p := by
  induction l with
  | nil => rfl
  | cons a l ih =>
    by_cases h : p a
    · rw [List.takeWhile_cons, if_pos h, List.length_cons,
        List.drop_succ_cons, List.dropWhile_cons, if_pos h]
      exact ih
    · rw [List.takeWhile_cons, if_neg h, List.length_nil, List.drop_zero,
        List.dropWhile_cons, if_neg h]

theorem dropWhile_head_false {α : Type} (p : α → Bool) (l : List α) (x : α)
    (rest : List α) (h : l.dropWhile p = x :: rest) : p x = false := by
  induction l with
  | nil => cases h
  | cons a l ih =>
    rw [List.dropWhile_cons] at h
    by_cases ha : p a
    · rw [if_pos ha] at h
      exact ih h
    · rw [if_neg ha] at h
      injection h with h1 _
      subst h1
      simpa using ha

theorem binary_search_sorted_mem (l : List String) (v : String)
    (hl : l.Pairwise (· ≤ ·)) : binary_search l v = true ↔ v ∈ l := by
  rw [binary_search, lower_bound, drop_length_takeWhile]
  cases hdw : l.dropWhile (fun x => decide (x < v)) with
  | nil =>
    simp only
    constructor
    · intro hfalse
      exact absurd hfalse (by simp)
    · intro hv
      exfalso
      have hsplit :=
        List.takeWhile_append_dropWhile (fun x => decide (x < v)) l
      rw [hdw, List.append_nil] at hsplit
      rw [← hsplit] at hv
      have := List.mem_takeWhile_imp hv
      simp only [decide_eq_true_eq] at this
      exact absurd this (lt_irrefl v)
  | cons x rest =>
    simp only
    have hx : ¬ x < v := by
      have := dropWhile_head_false (fun x => decide (x < v)) l x rest hdw
      simpa using this
    constructor
    · intro htrue
      have hxv : ¬ v < x := by simpa using htrue
      have hvx : v = x := le_antisymm (not_lt.mp hx) (not_lt.mp hxv)
      subst hvx
      have hmem : v ∈ l.dropWhile (fun x => decide (x < v)) := by
        rw [hdw]
        exact List.mem_cons_self v rest
      exact (List.dropWhile_suffix _).subset hmem
    · intro hv
      have hsplit :=
        List.takeWhile_append_dropWhile (fun x => decide (x < v)) l
      rw [hdw] at hsplit
      rw [← hsplit] at hv
      have hxv : x ≤ v := by
        rcases List.mem_append.mp hv with hvt | hvx
        · exfalso
          have := List.mem_takeWhile_imp hvt
          simp only [decide_eq_true_eq] at this
          exact absurd this (lt_irrefl v)
        · rcases List.mem_cons.mp hvx with hvx1 | hvr
          · exact le_of_eq hvx1.symm
          · have hsorted : (x :: rest).Pairwise
                (fun a b : String => a ≤ b) := by
              have hsub : (x :: rest) <:+ l := hdw ▸ List.dropWhile_suffix _
              exact List.Pairwise.sublist hsub.sublist hl
            exact (List.pairwise_cons.mp hsorted).1 v hvr
      simp only [Bool.not_eq_true', decide_eq_false_iff_not]
      exact not_lt.mpr hxv

theorem Sorted_pairwise (l : List String) :
    (Sorted l).Pairwise (· ≤ ·) := by
  have h := @List.sorted_mergeSort String (fun a b : String => decide (a ≤ b))
    (fun a b c hab hbc => by
      simp only [decide_eq_true_eq] at hab hbc ⊢
      exact le_trans hab hbc)
    (fun a b => by simpa using le_total a b) l
  exact h.imp (fun hab => by simpa using hab)

theorem mem_Sorted (l : List String) (v : String) :
    v ∈ Sorted l ↔ v ∈ l :=
  (List.mergeSort_perm l _).mem_iff

/-- C9: `IdCanConnect` on a freshly constructed
`ExternallyConnectableInfo` decides exactly `all_ids`-or-membership: the
constructor stores the ids sorted, so the binary search decides exactly
membership in the constructor's id list. -/
theorem IdCanConnect_iff (ids : List String) (all_ids : Bool) (id : String) :
    (ExternallyConnectableInfo.ctor ids all_ids).IdCanConnect id = true ↔
      (all_ids = true ∨ id ∈ ids) := by
  cases all_ids
  · rw [show (ExternallyConnectableInfo.ctor ids false).IdCanConnect id
        = binary_search (Sorted ids) id from rfl]
    rw [binary_search_sorted_mem (Sorted ids) id (Sorted_pairwise ids),
      mem_Sorted]
    simp
  · rw [show (ExternallyConnectableInfo.ctor ids true).IdCanConnect id
        = true from rfl]
    simp

end Extensions

namespace CookiePrompt

/-- The decision callbacks of `CookiesPromptViewDelegate`. -/
inductive DelegateCall where
  | allowSiteData (remember : Bool) (session_expire : Bool)
  | blockSiteData (remember : Bool)
  deriving DecidableEq

/-- The possible senders of a `ButtonPressed` notification: the allow
button, the block button, or any other listener-registered control (the
radio buttons also have the view as their listener and fall through both
branches of `ButtonPressed`). -/
inductive Sender where
  | allowButton
  | blockButton
  | otherButton
  deriving DecidableEq

/-- The events in the life of a `CookiesPromptView`:
`buttonPressed sender remember_checked` is `ButtonPressed` with the given
sender and the current checked state of the remember radio button,
`modifyExpireDate` is the `CookieInfoViewDelegate` notification, and
`windowClosing` is the `WindowClosing` dialog callback. -/
inductive Event where
  | buttonPressed (sender : Sender) (remember_checked : Bool)
  | modifyExpireDate (session_expire : Bool)
  | windowClosing
  deriving DecidableEq

/-- The state of a `CookiesPromptView` relevant to the delegate protocol:
`signaled_`, `session_expire_`, and whether `delegate_` is non-null
(fixed at construction). -/
structure PromptState where
  signaled : Bool
  session_expire : Bool
  has_delegate : Bool
  deriving DecidableEq

/-- The `CookiesPromptView` constructor: `session_expire_(false)`,
`signaled_(false)`, `delegate_(delegate)`. -/
def initPrompt (has_delegate : Bool) : PromptState :=
  ⟨false, false, has_delegate⟩

/-- One event step of cookie_prompt_view.cc, with the delegate calls it
performs.  `ButtonPressed`: the allow button fires
`AllowSiteData(remember_radio_->checked(), session_expire_)` and the block
button `BlockSiteData(remember_radio_->checked())`, each guarded by
`delegate_` and setting `signaled_`; other senders fall through.
`ModifyExpireDate` stores the flag.  `WindowClosing` fires
`BlockSiteData(false)` exactly when `!signaled_ && delegate_`. -/
def step (s : PromptState) : Event → PromptState × List DelegateCall
  | .buttonPressed .allowButton r =>
    if s.has_delegate then
      (⟨true, s.session_expire, s.has_delegate⟩,
       [.allowSiteData r s.session_expire])
    else (s, [])
  | .buttonPressed .blockButton r =>
    if s.has_delegate then
      (⟨true, s.session_expire, s.has_delegate⟩, [.blockSiteData r])
    else (s, [])
  | .buttonPressed .otherButton _ => (s, [])
  | .modifyExpireDate b => (⟨s.signaled, b, s.has_delegate⟩, [])
  | .windowClosing =>
    if !s.signaled && s.has_delegate then (s, [.blockSiteData false])
    else (s, [])

/-- Run a list of events, collecting the delegate calls in order. -/
def run (s : PromptState) : List Event → PromptState × List DelegateCall
  | [] => (s, [])
  | e :: es => ((run (step s e).1 es).1, (step s e).2 ++ (run (step s e).1 es).2)

/-- Whether an event is a press of one of the two decision buttons. -/
def isDecisionPress : Event → Bool
  | .buttonPressed .allowButton _ => true
  | .buttonPressed .blockButton _ => true
  | _ => false

theorem run_append (s : PromptState) (l1 l2 : List Event) :
    run s (l1 ++ l2)
      = ((run (run s l1).1 l2).1, (run s l1).2 ++ (run (run s l1).1 l2).2) := by
  induction l1 generalizing s with
  | nil => simp [run]
  | cons e es ih => simp [run, ih, List.append_assoc]

theorem run_pre (pre : List Event) : ∀ s : PromptState,
    s.has_delegate = true → Event.windowClosing ∉ pre →
    ((run s pre).2.length = (pre.filter isDecisionPress).length ∧
     (run s pre).1.signaled = (s.signaled || pre.any isDecisionPress) ∧
     (run s pre).1.has_delegate = true ∧
     ((pre.filter isDecisionPress).length = 0 → (run s pre).2 = [])) := by
  induction pre with
  | nil =>
    intro s hs _
    refine ⟨rfl, ?_, hs, fun _ => rfl⟩
    simp [run]
  | cons e es ih =>
    intro s hs hnc
    have hnc' : Event.windowClosing ∉ es :=
      fun hmem => hnc (List.mem_cons_of_mem e hmem)
    cases e with
    | buttonPressed sender r =>
      cases sender with
      | allowButton =>
        have hstep : step s (.buttonPressed .allowButton r)
            = (⟨true, s.session_expire, s.has_delegate⟩,
               [.allowSiteData r s.session_expire]) := by
          rw [step, if_pos hs]
        obtain ⟨ih1, ih2, ih3, ih4⟩ :=
          ih ⟨true, s.session_expire, s.has_delegate⟩ hs hnc'
        refine ⟨?_, ?_, ?_, ?_⟩
        · simp only [run, hstep, List.length_append, List.filter_cons,
            isDecisionPress, if_true, List.length_cons]
          simp only [List.length_cons, List.length_nil] at ih1 ⊢
          omega
        · simp only [run, hstep, List.any_cons, isDecisionPress]
          simp only [run, hstep] at ih2
          rw [ih2]
          simp
        · simp only [run, hstep]
          simpa [run, hstep] using ih3
        · intro h0
          simp [List.filter_cons, isDecisionPress] at h0
      | blockButton =>
        have hstep : step s (.buttonPressed .blockButton r)
            = (⟨true, s.session_expire, s.has_delegate⟩,
               [.blockSiteData r]) := by
          rw [step, if_pos hs]
        obtain ⟨ih1, ih2, ih3, ih4⟩ :=
          ih ⟨true, s.session_expire, s.has_delegate⟩ hs hnc'
        refine ⟨?_, ?_, ?_, ?_⟩
        · simp only [run, hstep, List.length_append, List.filter_cons,
            isDecisionPress, if_true, List.length_cons]
          simp only [List.length_cons, List.length_nil] at ih1 ⊢
          omega
        · simp only [run, hstep, List.any_cons, isDecisionPress]
          simp only [run, hstep] at ih2
          rw [ih2]
          simp
        · simp only [run, hstep]
          simpa [run, hstep] using ih3
        · intro h0
          simp [List.filter_cons, isDecisionPress] at h0
      | otherButton =>
        have hstep : step s (.buttonPressed .otherButton r) = (s, []) := rfl
        obtain ⟨ih1, ih2, ih3, ih4⟩ := ih s hs hnc'
        refine ⟨?_, ?_, ?_, ?_⟩
        · simp only [run, hstep, List.length_append, List.filter_cons,
            isDecisionPress]
          simpa using ih1
        · simp only [run, hstep, List.any_cons, isDecisionPress]
          simpa using ih2
        · simpa [run, hstep] using ih3
        · intro h0
          simp only [List.filter_cons, isDecisionPress] at h0
          simp only [run, hstep, List.nil_append]
          exact ih4 (by simpa using h0)
    | modifyExpireDate b =>
      have hstep : step s (.modifyExpireDate b)
          = (⟨s.signaled, b, s.has_delegate⟩, []) := rfl
      obtain ⟨ih1, ih2, ih3, ih4⟩ :=
        ih ⟨s.signaled, b, s.has_delegate⟩ hs hnc'
      refine ⟨?_, ?_, ?_, ?_⟩
      · simp only [run, hstep, List.length_append, List.filter_cons,
          isDecisionPress]
        simpa using ih1
      · simp only [run, hstep, List.any_cons, isDecisionPress]
        simpa using ih2
      · simpa [run, hstep] using ih3
      · intro h0
        simp only [List.filter_cons, isDecisionPress] at h0
        simp only [run, hstep, List.nil_append]
        exact ih4 (by simpa using h0)
    | windowClosing =>
      exact absurd (List.mem_cons_self _ _) hnc

/-- C10: a `CookiesPromptView` lifetime with a non-null delegate delivers
exactly one decision callback.  For any sequence of events before the
window closes that contains at most one decision-button press: exactly one
delegate call is made over the whole lifetime; if no decision button was
pressed, that one call is `BlockSiteData(false)` made by `WindowClosing`.
Furthermore the individual steps behave as the source prescribes: the
allow button yields `AllowSiteData(remember, session_expire_)`, the block
button `BlockSiteData(remember)` (both setting `signaled_`),
`WindowClosing` yields `BlockSiteData(false)` when not signaled and
nothing when already signaled. -/
theorem cookie_prompt_exactly_one_decision (pre : List Event)
    (hnc : Event.windowClosing ∉ pre)
    (hle : (pre.filter isDecisionPress).length ≤ 1) :
    ((run (initPrompt true) (pre ++ [Event.windowClosing])).2.length = 1) ∧
    ((pre.filter isDecisionPress).length = 0 →
      (run (initPrompt true) (pre ++ [Event.windowClosing])).2
        = [DelegateCall.blockSiteData false]) ∧
    (∀ (s : PromptState) (r : Bool), s.has_delegate = true →
      step s (Event.buttonPressed Sender.allowButton r)
        = (⟨true, s.session_expire, s.has_delegate⟩,
           [DelegateCall.allowSiteData r s.session_expire])) ∧
    (∀ (s : PromptState) (r : Bool), s.has_delegate = true →
      step s (Event.buttonPressed Sender.blockButton r)
        = (⟨true, s.session_expire, s.has_delegate⟩,
           [DelegateCall.blockSiteData r])) ∧
    (∀ s : PromptState, s.signaled = false → s.has_delegate = true →
      step s Event.windowClosing = (s, [DelegateCall.blockSiteData false])) ∧
    (∀ s : PromptState, s.signaled = true →
      step s Event.windowClosing = (s, [])) := by
  obtain ⟨h1, h2, h3, h4⟩ := run_pre pre (initPrompt true) rfl hnc
  have hsig : (run (initPrompt true) pre).1.signaled
      = pre.any isDecisionPress := by
    rw [h2]
    simp [initPrompt]
  have happ := run_append (initPrompt true) pre [Event.windowClosing]
  have hmain :
      ((run (initPrompt true) (pre ++ [Event.windowClosing])).2.length = 1) ∧
      ((pre.filter isDecisionPress).length = 0 →
        (run (initPrompt true) (pre ++ [Event.windowClosing])).2
          = [DelegateCall.blockSiteData false]) := by
    by_cases hz : (pre.filter isDecisionPress).length = 0
    · have hany : pre.any isDecisionPress = false := by
        have hfil : pre.filter isDecisionPress = [] := List.length_eq_zero.mp hz
        rw [List.any_eq_false]
        intro x hx
        exact List.filter_eq_nil.mp hfil x hx
      have hclose : step (run (initPrompt true) pre).1 Event.windowClosing
          = ((run (initPrompt true) pre).1,
             [DelegateCall.blockSiteData false]) := by
        rw [step, if_pos (by rw [hsig, hany, h3]; decide)]
      constructor
      · rw [happ]
        simp only [run]
        rw [hclose, h4 hz]
        simp
      · intro _
        rw [happ]
        simp only [run]
        rw [hclose, h4 hz]
        simp
    · have hone : (pre.filter isDecisionPress).length = 1 := by omega
      have hany : pre.any isDecisionPress = true := by
        rw [List.any_eq_true]
        have hne : pre.filter isDecisionPress ≠ [] := by
          intro hnil
          rw [hnil] at hone
          simp at hone
        obtain ⟨x, hx⟩ := List.exists_mem_of_ne_nil _ hne
        have hxf := List.mem_filter.mp hx
        exact ⟨x, hxf.1, hxf.2⟩
      have hclose : step (run (initPrompt true) pre).1 Event.windowClosing
          = ((run (initPrompt true) pre).1, []) := by
        rw [step, if_neg (by rw [hsig, hany]; simp)]
      constructor
      · rw [happ]
        simp only [run]
        rw [hclose]
        simp only [List.append_nil]
        rw [h1, hone]
      · intro h0
        exact absurd h0 hz
  refine ⟨hmain.1, hmain.2, ?_, ?_, ?_, ?_⟩
  · intro s r hd
    rw [step, if_pos hd]
  · intro s r hd
    rw [step, if_pos hd]
  · intro s hsg hd
    rw [step, if_pos (by rw [hsg, hd]; decide)]
  · intro s hsg
    rw [step, if_neg (by rw [hsg]; simp)]

/-- Witness for C10 on a concrete lifetime: the allow button is pressed
once with the remember radio checked, then the window closes; the delegate
receives exactly one call. -/
theorem cookie_prompt_exactly_one_decision_witness :
    (run (initPrompt true)
      ([Event.buttonPressed Sender.allowButton true]
        ++ [Event.windowClosing])).2.length = 1 :=
  (cookie_prompt_exactly_one_decision
    [Event.buttonPressed Sender.allowButton true]
    (by decide) (by decide)).1

end CookiePrompt
